import Mathlib

/-!
Shallow embedding of the sentiment-analysis pipeline
(scripts/preprocess.py, scripts/analyse.py, scripts/visualise.py).

Conventions of the embedding:
  a Python dict is an association list in insertion order;
  Python float scores are exact rationals;
  the external collaborators (nltk tokenizers, the VADER analyzer,
  matplotlib rendering and file output) are abstracted: token views are
  carried as data, the analyzer is a parameter, and rendering is an
  Except value whose error constructor stands for a raised exception.
-/

/-- A comment record (class FilterSentences of scripts/preprocess.py):
the original text, the timestamp, and the four aligned token views.
The nltk tokenizers that populate the views in the Python constructor are
external collaborators; records carry whatever views they produced. -/
structure FilterSentences where
  origin_text : String
  timestamp : String
  sent_tokens : List String
  word_tokens : List (List String)
  stem_tokens : List (List String)
  lem_tokens : List (List String)
deriving Repr, DecidableEq

/-- The standard English stop word list of the nltk corpus, which
scripts/preprocess.py line 11 loads with stopwords.words applied to
"english". Modelled from the spec: the corpus data itself is external to
the repository; the spec calls it a standard English stop-word list. -/
def NLTK_ENGLISH_STOP_WORDS : List String :=
  ["i", "me", "my", "myself", "we", "our", "ours", "ourselves", "you",
   "you\x27re", "you\x27ve", "you\x27ll", "you\x27d", "your", "yours",
   "yourself", "yourselves", "he", "him", "his", "himself", "she",
   "she\x27s", "her", "hers", "herself", "it", "it\x27s", "its", "itself",
   "they", "them", "their", "theirs", "themselves", "what", "which", "who",
   "whom", "this", "that", "that\x27ll", "these", "those", "am", "is",
   "are", "was", "were", "be", "been", "being", "have", "has", "had",
   "having", "do", "does", "did", "doing", "a", "an", "the", "and", "but",
   "if", "or", "because", "as", "until", "while", "of", "at", "by", "for",
   "with", "about", "against", "between", "into", "through", "during",
   "before", "after", "above", "below", "to", "from", "up", "down", "in",
   "out", "on", "off", "over", "under", "again", "further", "then", "once",
   "here", "there", "when", "where", "why", "how", "all", "any", "both",
   "each", "few", "more", "most", "other", "some", "such", "no", "nor",
   "not", "only", "own", "same", "so", "than", "too", "very", "s", "t",
   "can", "will", "just", "don", "don\x27t", "should", "should\x27ve",
   "now", "d", "ll", "m", "o", "re", "ve", "y", "ain", "aren",
   "aren\x27t", "couldn", "couldn\x27t", "didn", "didn\x27t", "doesn",
   "doesn\x27t", "hadn", "hadn\x27t", "hasn", "hasn\x27t", "haven",
   "haven\x27t", "isn", "isn\x27t", "ma", "mightn", "mightn\x27t",
   "mustn", "mustn\x27t", "needn", "needn\x27t", "shan", "shan\x27t",
   "shouldn", "shouldn\x27t", "wasn", "wasn\x27t", "weren", "weren\x27t",
   "won", "won\x27t", "wouldn", "wouldn\x27t"]

/-- The punctuation symbols added to the stop set in
scripts/preprocess.py line 12. -/
def STOP_PUNCTUATION : List String :=
  [",", ".", "!", "?", ";", ":", "\x27", "\x22", "\x60", "\x60\x60"]

/-- The allow-list removed from the stop set: the union of the seven
set subtractions of scripts/preprocess.py lines 13 to 41 (negators,
then the quantifier, modal, relative and temporal words). The seven
subtractions are consecutive with no interleaved additions, so their
union removes exactly the same elements. -/
def STOP_ALLOWLIST : List String :=
  ["shan\x27t", "wouldn\x27t", "shouldn\x27t", "wasn\x27t", "aren\x27t",
   "not", "mightn\x27t", "no", "doesn\x27t", "hasn\x27t", "won\x27t",
   "isn\x27t", "out", "don\x27t", "didn\x27t", "needn\x27t",
   "mustn\x27t", "hadn\x27t", "couldn\x27t", "off", "nor",
   "very", "to",
   "should", "can", "will",
   "if",
   "which", "who", "this", "those", "that", "these", "whom",
   "each", "most", "few", "all", "some", "more", "any",
   "before", "between", "during", "against", "after"]

/-- CONST_STOP_WORDS of scripts/preprocess.py lines 11 to 41: the nltk
list plus punctuation, minus the allow-list. The Python set is embedded
as the list of its members; only membership is ever consulted. -/
def CONST_STOP_WORDS : List String :=
  (NLTK_ENGLISH_STOP_WORDS ++ STOP_PUNCTUATION).filter
    (fun s => !(STOP_ALLOWLIST.contains s))

/-- One token of the stop-word replacement of StopWordCleanner.clean:
a stop word becomes the empty-string placeholder, anything else is kept. -/
def cleanToken (j : String) : String :=
  if CONST_STOP_WORDS.contains j then "" else j

/-- StopWordCleanner.clean of scripts/preprocess.py lines 133 to 157:
replaces stop words with empty placeholders in the stem and lemma views,
leaving the other fields untouched. -/
def clean (sent : FilterSentences) : FilterSentences :=
  { sent with
    stem_tokens := sent.stem_tokens.map (fun i => i.map cleanToken)
    lem_tokens := sent.lem_tokens.map (fun i => i.map cleanToken) }

/-- InverseCompacter.WINDOW_SIZE of scripts/preprocess.py line 166. -/
def WINDOW_SIZE : Nat := 3

/-- InverseCompacter.NEG_TOKENS of scripts/preprocess.py lines 167 to 194. -/
def NEG_TOKENS : List String :=
  ["won\x27t", "n\x27t", "out", "without", "no", "don\x27t",
   "mightn\x27t", "isn\x27t", "doesn\x27t", "shouldn\x27t", "can\x27t",
   "wouldn\x27t", "hadn\x27t", "nor", "off", "cannot", "needn\x27t",
   "never", "shan\x27t", "didn\x27t", "couldn\x27t", "mustn\x27t",
   "not", "aren\x27t", "hasn\x27t", "wasn\x27t"]

/-- Character-wise lower-casing, embedding the Python lower method of
str as used on the ASCII tokens of this pipeline. -/
def strLower (s : String) : String := ⟨s.data.map Char.toLower⟩

/-- The loop body of InverseCompacter.compact_tokens
(scripts/preprocess.py lines 209 to 224), with the window counter as
explicit state. Every token is lower-cased first; a negation marker
re-arms the counter to WINDOW_SIZE and is emitted; while the counter is
positive a non-marker token is emitted with the NEG_ tag and the counter
decrements; otherwise the token is emitted as is (lower-cased). -/
def compactAux : Nat → List String → List String
  | _, [] => []
  | count, token :: rest =>
    let t := strLower token
    if t ∈ NEG_TOKENS then t :: compactAux WINDOW_SIZE rest
    else if 0 < count then ("NEG_" ++ t) :: compactAux (count - 1) rest
    else t :: compactAux count rest

/-- InverseCompacter.compact_tokens of scripts/preprocess.py lines 196
to 224: the counter starts at 0. -/
def compact_tokens (tokens : List String) : List String :=
  compactAux 0 tokens

/-- InverseCompacter.compact_sentences of scripts/preprocess.py lines
226 to 240: compacts each sentence of the stem view. -/
def compact_sentences (sent : FilterSentences) : FilterSentences :=
  { sent with stem_tokens := sent.stem_tokens.map compact_tokens }

/-- StemToLemMapping of scripts/preprocess.py: the stem to lemma dict,
embedded as an association list in insertion order. -/
structure StemToLemMapping where
  mapping : List (String × String)
deriving Repr, DecidableEq

/-- The loop body of StemToLemMapping.build_mapping (scripts/preprocess.py
lines 260 to 268): skip a pair whose stem or lemma is empty, skip a stem
already present, otherwise append the new binding. -/
def insertPair (m : List (String × String)) (kv : String × String) :
    List (String × String) :=
  if kv.1.length = 0 ∨ kv.2.length = 0 then m
  else if (m.lookup kv.1).isSome then m
  else m ++ [kv]

/-- The aligned (stem, lemma) pairs of one comment, in loop order: the
Python loop reads lem_tokens at the indices of stem_tokens, which under
the alignment invariant is the positional zip of the two views. -/
def alignedPairs (stem lem : List (List String)) : List (String × String) :=
  ((stem.zip lem).map (fun st => st.1.zip st.2)).flatten

/-- StemToLemMapping.build_mapping of scripts/preprocess.py lines 249
to 269. -/
def build_mapping (self : StemToLemMapping)
    (sentences : List FilterSentences) : StemToLemMapping :=
  ⟨sentences.foldl
    (fun m s => (alignedPairs s.stem_tokens s.lem_tokens).foldl insertPair m)
    self.mapping⟩

/-- StemToLemMapping.check_stem_token of scripts/preprocess.py lines 271
to 281. -/
def check_stem_token (self : StemToLemMapping) (stem_token : String) : Bool :=
  (self.mapping.lookup stem_token).isSome

/-- Whether pre is a prefix of s, embedding the Python startswith
method of str. -/
def strStartsWith (s pre : String) : Bool := pre.data.isPrefixOf s.data

/-- StemToLemMapping.get_lem_token of scripts/preprocess.py lines 283 to
301: look the full stem token up (default: the token itself), and when
the token starts with the NEG_ tag prepend the negative label and a
space to that result. The Python default argument "not" is passed
explicitly by callers of this embedding. -/
def get_lem_token (self : StemToLemMapping) (stem_token : String)
    ( negative_prefix : String) : String :=
  let result := (self.mapping.lookup stem_token).getD stem_token
  if strStartsWith stem_token ("NEG_") then negative_prefix ++ " " ++ result
  else result

/-- TokenWithScore of scripts/analyse.py lines 71 to 88: a stem token
with its occurrence count and sentiment score. Python float scores are
embedded as exact rationals. -/
structure TokenWithScore where
  token : String
  count : Nat
  score : ℚ
deriving Repr, DecidableEq

/-- The counting dict update of TokenProcesser.get_top_stem_tokens
(scripts/analyse.py lines 118 to 122): insert the token with count 0
when absent, then increment. On the association list this increments in
place the first entry of the key, or appends a fresh entry of count 1. -/
def bump : List (String × Nat) → String → List (String × Nat)
  | [], token => [(token, 1)]
  | (k, v) :: rest, token =>
    if k = token then (k, v + 1) :: rest else (k, v) :: bump rest token

/-- The count dict of TokenProcesser.get_top_stem_tokens
(scripts/analyse.py lines 114 to 122): every token of every sentence of
every comment in loop order, skipping empty placeholders. -/
def countStemTokens (comments : List FilterSentences) : List (String × Nat) :=
  ((comments.map FilterSentences.stem_tokens).flatten.flatten).foldl
    (fun m token => if token.length = 0 then m else bump m token) []

/-- The pair list built on scripts/analyse.py line 124: the (count,
token) swap of the count dict, in insertion order. -/
def stemTokenPairs (comments : List FilterSentences) : List (Nat × String) :=
  (countStemTokens comments).map (fun kv => (kv.2, kv.1))

/-- Strict comparison of Python (int, str) tuples, embedding the tuple
comparison of the sort on scripts/analyse.py line 125: first components
by integer order, ties by the code-point lexicographic order of the
token text (the order of Python str values, which is the lexicographic
order on the character list). -/
def pairLt (a b : Nat × String) : Prop :=
  a.1 < b.1 ∨ (a.1 = b.1 ∧ a.2.data < b.2.data)

instance : DecidableRel pairLt := fun a b =>
  inferInstanceAs (Decidable (_ ∨ _))

/-- The descending sort relation of scripts/analyse.py line 125: a
before b when a is not strictly below b in the tuple order, so that the
sorted list descends in the (count, token) order. -/
def pairGe (a b : Nat × String) : Prop := ¬pairLt a b

instance : DecidableRel pairGe := fun a b =>
  inferInstanceAs (Decidable (¬_))

/-- Strictly greater in the Python tuple order: the relation that holds
between successive entries of the descending sort, the later pair being
strictly below the earlier one. -/
def pairGT (a b : Nat × String) : Prop := pairLt b a

/-- TokenProcesser.get_top_stem_tokens of scripts/analyse.py lines 97
to 129: count nonempty stem tokens, sort the (count, token) pairs in
descending order, truncate to the floor of length times percent (the
Python int conversion of the float product, embedded exactly over the
rationals), and wrap in TokenWithScore records with score 0. -/
def get_top_stem_tokens (comments : List FilterSentences) (percent : ℚ) :
    List TokenWithScore :=
  (((stemTokenPairs comments).insertionSort pairGe).take
      (Int.toNat ⌊((stemTokenPairs comments).length : ℚ) * percent⌋)).map
    (fun i => ⟨i.2, i.1, 0⟩)

/-- The loop body of TokenProcesser.get_token_score (scripts/analyse.py
lines 150 to 166): skip stems absent from the mapping; resolve the stem
to lemma text with an empty negative label; score that text with the
analyzer (the external VADER model, a parameter of this embedding);
invert by the factor -0.74 exactly when the stem carries the NEG_ tag;
append the rescored token unless the final score is zero. -/
def tokenScoreStep (analyzer : String → ℚ) (mapping : StemToLemMapping)
    (result : List TokenWithScore) (i : TokenWithScore) :
    List TokenWithScore :=
  if !(check_stem_token mapping i.token) then result
  else
    let lem_token := get_lem_token mapping i.token ""
    let lem_score := analyzer lem_token
    let lem_score :=
      if strStartsWith i.token ("NEG_") then lem_score * (-74 / 100)
      else lem_score
    if lem_score ≠ 0 then result ++ [⟨i.token, i.count, lem_score⟩]
    else result

/-- TokenProcesser.get_token_score of scripts/analyse.py lines 131 to
168. -/
def get_token_score (analyzer : String → ℚ) (tokens : List TokenWithScore)
    (mapping : StemToLemMapping) : List TokenWithScore :=
  tokens.foldl (tokenScoreStep analyzer mapping) []

/-- Visualizer.save_comments_trend of scripts/visualise.py lines 15 to
66: the validation guard of lines 31 to 33 is embedded exactly; the
chart arithmetic, matplotlib rendering and file write that follow the
guard are external effects, abstracted as the ok value. An error value
stands for the raised exception, before which no output is produced. -/
def save_comments_trend (data : List ℚ) (output_path : String)
    (steps : Int) : Except String Unit :=
  if data.length = 0 ∨ steps ≤ 0 then
    Except.error ("save_comments_trend: Invalid user input")
  else Except.ok ()

/-- Visualizer.save_tokens_trend of scripts/visualise.py lines 68 to
125: the validation guard of lines 85 to 86 is embedded exactly; the
rendering and file write that follow are external effects, abstracted
as the ok value. -/
def save_tokens_trend (data : List TokenWithScore)
    (mapping : StemToLemMapping) (output_path : String) :
    Except String Unit :=
  if data.length = 0 then
    Except.error ("save_tokens_trend: Invalid user input")
  else Except.ok ()

/-- The per-token score described by the specification for
get_token_score: the analyzer score of the resolved lemma text,
multiplied by the inversion factor -0.74 exactly when the stem carries
the NEG_ tag. Defined from the wording of the spec, to be compared with
the loop of the source. -/
def specTokenScore (analyzer : String → ℚ) (mapping : StemToLemMapping)
    (t : TokenWithScore) : ℚ :=
  if strStartsWith t.token ("NEG_") then
    analyzer (get_lem_token mapping t.token "") * (-74 / 100)
  else analyzer (get_lem_token mapping t.token "")

theorem cleanToken_idem (j : String) :
    cleanToken (cleanToken j) = cleanToken j := by
  unfold cleanToken
  by_cases h : CONST_STOP_WORDS.contains j = true
  · rw [if_pos h, if_neg (by decide : ¬CONST_STOP_WORDS.contains "" = true)]
  · rw [if_neg h, if_neg h]

theorem map_cleanToken_idem (l : List String) :
    (l.map cleanToken).map cleanToken = l.map cleanToken := by
  rw [List.map_map]
  exact List.map_congr_left (fun a _ => cleanToken_idem a)

/-- C7: StopWordCleanner.clean is idempotent: cleaning an already
cleaned comment record changes nothing, on the stem view, the lemma
view, and hence the whole record. -/
theorem clean_idempotent (r : FilterSentences) : clean (clean r) = clean r := by
  obtain ⟨o, ti, se, wo, st, lm⟩ := r
  simp only [clean, List.map_map, FilterSentences.mk.injEq, true_and]
  constructor
  · exact List.map_congr_left (fun l _ => map_cleanToken_idem l)
  · exact List.map_congr_left (fun l _ => map_cleanToken_idem l)

theorem compactAux_length (c : Nat) (ts : List String) :
    (compactAux c ts).length = ts.length := by
  induction ts generalizing c with
  | nil => rfl
  | cons tok rest ih =>
    simp only [compactAux]
    split
    · simp [ih]
    · split <;> simp [ih]

/-- C4: StopWordCleanner.clean followed by
InverseCompacter.compact_sentences preserves the shape of the stem and
lemma token views: the outer sentence count and every inner token count
equal those of the initial tokenization. -/
theorem pipeline_shape_preserved (r : FilterSentences) :
    (compact_sentences (clean r)).stem_tokens.map List.length
        = r.stem_tokens.map List.length
  ∧ (compact_sentences (clean r)).lem_tokens.map List.length
        = r.lem_tokens.map List.length := by
  constructor
  · show ((r.stem_tokens.map (List.map cleanToken)).map compact_tokens).map
        List.length = _
    rw [List.map_map, List.map_map]
    exact List.map_congr_left (fun l _ => by
      show (compact_tokens (l.map cleanToken)).length = l.length
      rw [compact_tokens, compactAux_length, List.length_map])
  · show (r.lem_tokens.map (List.map cleanToken)).map List.length = _
    rw [List.map_map]
    exact List.map_congr_left (fun l _ => by
      show (l.map cleanToken).length = l.length
      rw [List.length_map])

/-- C3: on the token list of the specification the compaction marks
exactly "good", "movie" and "at" with the negation tag and leaves "all"
and "here" unmarked; in general a negation marker re-arms the window
counter to the full width 3 rather than stacking, and a non-marker
token inside an armed window is tagged while the counter decrements
once. -/
theorem compact_tokens_window (count : Nat) (token : String)
    (rest : List String) :
    compact_tokens ["not", "good", "movie", "at", "all", "here"]
        = ["not", "NEG_good", "NEG_movie", "NEG_at", "all", "here"]
  ∧ (strLower token ∈ NEG_TOKENS →
      compactAux count (token :: rest)
        = strLower token :: compactAux WINDOW_SIZE rest)
  ∧ (strLower token ∉ NEG_TOKENS → 0 < count →
      compactAux count (token :: rest)
        = ("NEG_" ++ strLower token) :: compactAux (count - 1) rest) := by
  refine ⟨by decide, ?_, ?_⟩
  · intro h
    simp only [compactAux]
    rw [if_pos h]
  · intro h h2
    simp only [compactAux]
    rw [if_neg h, if_pos h2]

theorem compact_tokens_window_witness :
    compactAux 1 ("not" :: ["good"]) = "not" :: compactAux WINDOW_SIZE ["good"]
  ∧ compactAux 2 ("good" :: ["movie"]) = "NEG_good" :: compactAux 1 ["movie"] := by
  constructor
  · have h := (compact_tokens_window 1 "not" ["good"]).2.1 (by decide)
    rw [h]
    have : strLower "not" = "not" := by decide
    rw [this]
  · have h := (compact_tokens_window 2 "good" ["movie"]).2.2 (by decide) (by decide)
    rw [h]
    have : "NEG_" ++ strLower "good" = "NEG_good" := by decide
    rw [this]

/-- C8 counterexample: the claim that a marker token is emitted
unchanged and that after the window closes tokens pass through
unchanged fails on upper-case input, because the code emits the
lower-cased token in every branch: the marker "NOT" is emitted as
"not", and the out-of-window token "Movie" is emitted as "movie". -/
theorem compact_tokens_passthrough_cex :
    compact_tokens ["NOT"] = ["not"] ∧ ("not" : String) ≠ "NOT"
  ∧ compact_tokens ["Movie"] = ["movie"] ∧ ("movie" : String) ≠ "Movie" := by
  decide

/-- C8 (amended): a token whose lower-casing matches the fixed
negation-marker set is emitted lower-cased (the markers are lower-case,
so a marker token that is already lower-case is emitted unchanged), and
once the window counter is zero every non-marker token is emitted
lower-cased with no NEG_ tag; lower-casing is applied to every emitted
token, not only to the comparison. -/
theorem compact_tokens_emission (count : Nat) (token : String)
    (rest : List String) :
    (strLower token ∈ NEG_TOKENS →
      compactAux count (token :: rest)
        = strLower token :: compactAux WINDOW_SIZE rest)
  ∧ (strLower token ∉ NEG_TOKENS → count = 0 →
      compactAux count (token :: rest)
        = strLower token :: compactAux count rest)
  ∧ (∀ s ∈ NEG_TOKENS, strLower s = s) := by
  refine ⟨?_, ?_, by decide⟩
  · intro h
    simp only [compactAux]
    rw [if_pos h]
  · intro h h0
    simp only [compactAux]
    rw [if_neg h, if_neg (by simp [h0])]

theorem compact_tokens_emission_witness :
    compactAux 0 ("no" :: ["fun"]) = "no" :: compactAux WINDOW_SIZE ["fun"]
  ∧ compactAux 0 ("movie" :: []) = "movie" :: compactAux 0 [] := by
  constructor
  · have h := (compact_tokens_emission 0 "no" ["fun"]).1 (by decide)
    rw [h]
    have : strLower "no" = "no" := by decide
    rw [this]
  · have h := (compact_tokens_emission 0 "movie" []).2.1 (by decide) rfl
    rw [h]
    have : strLower "movie" = "movie" := by decide
    rw [this]

/-- C9: the chart operations fail fast on invalid configuration: an
empty score list or a non-positive steps count makes
save_comments_trend raise its reported error before any output, and an
empty token list makes save_tokens_trend raise likewise. -/
theorem visualise_invalid_input (data : List ℚ) (path : String)
    (steps : Int) (tdata : List TokenWithScore) (m : StemToLemMapping)
    (tpath : String) :
    (data = [] ∨ steps ≤ 0 →
      save_comments_trend data path steps
        = Except.error ("save_comments_trend: Invalid user input"))
  ∧ (tdata = [] →
      save_tokens_trend tdata m tpath
        = Except.error ("save_tokens_trend: Invalid user input")) := by
  constructor
  · intro h
    have hc : data.length = 0 ∨ steps ≤ 0 := by
      rcases h with h | h
      · exact Or.inl (by rw [h]; rfl)
      · exact Or.inr h
    unfold save_comments_trend
    rw [if_pos hc]
  · intro h
    subst h
    rfl

theorem visualise_invalid_input_witness :
    save_comments_trend [] "out.png" 5
        = Except.error ("save_comments_trend: Invalid user input")
  ∧ save_comments_trend [1/2] "out.png" 0
        = Except.error ("save_comments_trend: Invalid user input")
  ∧ save_tokens_trend [] ⟨[]⟩ "out.png"
        = Except.error ("save_tokens_trend: Invalid user input") := by
  refine ⟨?_, ?_, ?_⟩
  · exact (visualise_invalid_input [] "out.png" 5 [] ⟨[]⟩ "x").1 (Or.inl rfl)
  · exact (visualise_invalid_input [1/2] "out.png" 0 [] ⟨[]⟩ "x").1
      (Or.inr (le_refl 0))
  · exact (visualise_invalid_input [] "x" 1 [] ⟨[]⟩ "out.png").2 rfl

/-- C1 counterexample: the claimed lookup contract fails on the code.
With the mapping binding NEG_good to good, the claim's present-key
branch returns the mapped lemma "good", but the code returns
"not good". With the mapping binding good to well, the claim resolves
the NEG_ token through the un-prefixed stem, giving a combination of
the label "not" and "well" (or the fallback "good"), but the code looks
the full prefixed token up and falls back to it, returning
"not NEG_good". -/
theorem get_lem_token_claim_cex :
    get_lem_token ⟨[("NEG_good", "good")]⟩ "NEG_good" "not" = "not good"
  ∧ ("not good" : String) ≠ "good"
  ∧ get_lem_token ⟨[("good", "well")]⟩ "NEG_good" "not" = "not NEG_good"
  ∧ ("not NEG_good" : String) ≠ "not well"
  ∧ ("not NEG_good" : String) ≠ "notwell"
  ∧ ("not NEG_good" : String) ≠ "not good"
  ∧ ("not NEG_good" : String) ≠ "notgood"
  ∧ ("not NEG_good" : String) ≠ "well"
  ∧ ("not NEG_good" : String) ≠ "good" := by
  decide

/-- C1 (amended): get_lem_token always looks the full stem token up,
without stripping the NEG_ tag: the base result is the mapped lemma
when the full token is a key and the token itself otherwise, and when
the token starts with NEG_ the configured negative label and a space
are prepended to that base result; the function is total. -/
theorem get_lem_token_contract (m : StemToLemMapping)
    (stem_token np v : String) :
    (m.mapping.lookup stem_token = some v →
      get_lem_token m stem_token np
        = if strStartsWith stem_token ("NEG_") then np ++ " " ++ v else v)
  ∧ (m.mapping.lookup stem_token = none →
      get_lem_token m stem_token np
        = if strStartsWith stem_token ("NEG_") then np ++ " " ++ stem_token
          else stem_token) := by
  constructor <;> intro h <;> simp [get_lem_token, h]

theorem get_lem_token_contract_witness :
    get_lem_token ⟨[("NEG_good", "good")]⟩ "NEG_good" "not" = "not good"
  ∧ get_lem_token ⟨[("movi", "movie")]⟩ "movi" "not" = "movie"
  ∧ get_lem_token ⟨[]⟩ "run" "not" = "run" := by
  refine ⟨?_, ?_, ?_⟩
  · have h := (get_lem_token_contract ⟨[("NEG_good", "good")]⟩ "NEG_good"
      "not" "good").1 (by decide)
    rw [h]
    decide
  · have h := (get_lem_token_contract ⟨[("movi", "movie")]⟩ "movi"
      "not" "movie").1 (by decide)
    rw [h]
    decide
  · have h := (get_lem_token_contract ⟨[]⟩ "run" "not" "x").2 (by decide)
    rw [h]
    decide

theorem tokenScoreStep_eq (a : String → ℚ) (m : StemToLemMapping)
    (acc : List TokenWithScore) (i : TokenWithScore) :
    tokenScoreStep a m acc i
      = if check_stem_token m i.token then
          (if specTokenScore a m i = 0 then acc
           else acc ++ [⟨i.token, i.count, specTokenScore a m i⟩])
        else acc := by
  unfold tokenScoreStep specTokenScore
  by_cases hc : check_stem_token m i.token = true
  · simp only [hc, Bool.not_true, Bool.false_eq_true, if_false, if_true]
    by_cases hz : (if strStartsWith i.token ("NEG_") = true
        then a (get_lem_token m i.token "") * (-74 / 100)
        else a (get_lem_token m i.token "")) = 0
    · simp [hz]
    · simp [hz]
  · simp [hc]

theorem get_token_score_go (a : String → ℚ) (m : StemToLemMapping)
    (tokens acc : List TokenWithScore) :
    tokens.foldl (tokenScoreStep a m) acc
      = acc ++ (tokens.filter (fun i => check_stem_token m i.token)).filterMap
          (fun i =>
            if specTokenScore a m i = 0 then none
            else some ⟨i.token, i.count, specTokenScore a m i⟩) := by
  induction tokens generalizing acc with
  | nil => simp
  | cons i ts ih =>
    rw [List.foldl_cons, ih, tokenScoreStep_eq]
    by_cases hc : check_stem_token m i.token = true
    · by_cases hz : specTokenScore a m i = 0
      · simp [hc, hz, List.filter_cons, List.filterMap_cons]
      · simp [hc, hz, List.filter_cons, List.filterMap_cons, List.append_assoc]
    · simp [hc, List.filter_cons]

/-- C2: get_token_score keeps exactly the tokens whose stem is a key of
the mapping; each kept token is rescored with the analyzer score of its
resolved lemma text, multiplied by -0.74 exactly when the stem carries
the NEG_ tag (specTokenScore), and tokens whose final score is exactly
zero are dropped. -/
theorem get_token_score_spec (analyzer : String → ℚ)
    (tokens : List TokenWithScore) (mapping : StemToLemMapping) :
    get_token_score analyzer tokens mapping
      = (tokens.filter
            (fun i => check_stem_token mapping i.token)).filterMap
          (fun i =>
            if specTokenScore analyzer mapping i = 0 then none
            else some ⟨i.token, i.count, specTokenScore analyzer mapping i⟩) := by
  rw [get_token_score, get_token_score_go]
  rfl

/-- C10: an empty placeholder inside an armed negation window is
emitted as the literal token NEG_ (the tag concatenated with the empty
string); being nonempty, that token is counted by the top-token
selection as a distinct vocabulary entry instead of being skipped as a
placeholder. -/
theorem neg_placeholder_counted (count : Nat) (rest : List String) :
    (0 < count →
      compactAux count ("" :: rest) = "NEG_" :: compactAux (count - 1) rest)
  ∧ compact_tokens ["not", "", "good"] = ["not", "NEG_", "NEG_good"]
  ∧ (⟨"NEG_", 1, 0⟩ : TokenWithScore) ∈
      get_top_stem_tokens [⟨"", "", [], [], [["not", "NEG_", "NEG_good"]], []⟩] 1 := by
  refine ⟨?_, by decide, ?_⟩
  · intro h
    simp only [compactAux]
    rw [if_neg (by decide : ¬strLower "" ∈ NEG_TOKENS), if_pos h]
    rfl
  · unfold get_top_stem_tokens
    have hlen : (stemTokenPairs
        [⟨"", "", [], [], [["not", "NEG_", "NEG_good"]], []⟩]).length = 3 := by
      decide
    rw [hlen]
    norm_num
    decide

theorem neg_placeholder_counted_witness :
    compactAux 3 ("" :: ["good"]) = "NEG_" :: compactAux 2 ["good"] := by
  exact (neg_placeholder_counted 3 ["good"]).1 (by decide)

theorem lookup_append_some {l l2 : List (String × String)} {k v : String}
    (h : l.lookup k = some v) : (l ++ l2).lookup k = some v := by
  induction l with
  | nil => simp [List.lookup] at h
  | cons a rest ih =>
    obtain ⟨k1, v1⟩ := a
    rw [List.cons_append]
    by_cases hk : (k == k1) = true
    · simp only [List.lookup, hk] at h ⊢
      exact h
    · simp only [List.lookup, hk] at h ⊢
      exact ih h

theorem insertPair_lookup_some {m : List (String × String)}
    {kv : String × String} {k v : String} (h : m.lookup k = some v) :
    (insertPair m kv).lookup k = some v := by
  unfold insertPair
  split
  · exact h
  · split
    · exact h
    · exact lookup_append_some h

theorem foldl_insertPair_lookup_some (pairs : List (String × String))
    {m : List (String × String)} {k v : String} (h : m.lookup k = some v) :
    (pairs.foldl insertPair m).lookup k = some v := by
  induction pairs generalizing m with
  | nil => exact h
  | cons p ps ih => exact ih (insertPair_lookup_some h)

theorem buildFold_lookup_some (sentences : List FilterSentences)
    (m0 : List (String × String)) {k v : String} (h : m0.lookup k = some v) :
    (sentences.foldl
        (fun m s => (alignedPairs s.stem_tokens s.lem_tokens).foldl insertPair m)
        m0).lookup k = some v := by
  induction sentences generalizing m0 with
  | nil => exact h
  | cons s ss ih => exact ih _ (foldl_insertPair_lookup_some _ h)

theorem mem_insertPair {m : List (String × String)} {kv e : String × String}
    (h : e ∈ insertPair m kv) : e ∈ m ∨ (e.1 ≠ "" ∧ e.2 ≠ "") := by
  unfold insertPair at h
  split at h
  · exact Or.inl h
  · split at h
    · exact Or.inl h
    · rename_i hlen _
      rw [List.mem_append] at h
      rcases h with h | h
      · exact Or.inl h
      · rw [List.mem_singleton] at h
        subst h
        push_neg at hlen
        refine Or.inr ⟨?_, ?_⟩
        · intro he
          rw [he] at hlen
          exact hlen.1 rfl
        · intro he
          rw [he] at hlen
          exact hlen.2 rfl

theorem mem_foldl_insertPair (pairs : List (String × String))
    {m : List (String × String)} {e : String × String}
    (h : e ∈ pairs.foldl insertPair m) : e ∈ m ∨ (e.1 ≠ "" ∧ e.2 ≠ "") := by
  induction pairs generalizing m with
  | nil => exact Or.inl h
  | cons p ps ih =>
    rcases ih h with h' | h'
    · exact mem_insertPair h'
    · exact Or.inr h'

theorem mem_buildFold (sentences : List FilterSentences)
    {m0 : List (String × String)} {e : String × String}
    (h : e ∈ sentences.foldl
        (fun m s => (alignedPairs s.stem_tokens s.lem_tokens).foldl insertPair m)
        m0) : e ∈ m0 ∨ (e.1 ≠ "" ∧ e.2 ≠ "") := by
  induction sentences generalizing m0 with
  | nil => exact Or.inl h
  | cons s ss ih =>
    rcases ih h with h' | h'
    · exact mem_foldl_insertPair _ h'
    · exact Or.inr h'

/-- C6: build_mapping is first-write-wins: an existing binding of the
mapping survives any further build (a key once inserted is never
overwritten), pairs with an empty stem or empty lemma are never
inserted, and building from the duplicate-stem corpus run/running then
run/runs yields the binding run to running only. -/
theorem build_mapping_first_write_wins (m : StemToLemMapping)
    (sentences : List FilterSentences) (k v : String) (kv : String × String) :
    (m.mapping.lookup k = some v →
      (build_mapping m sentences).mapping.lookup k = some v)
  ∧ (kv ∈ (build_mapping ⟨[]⟩ sentences).mapping → kv.1 ≠ "" ∧ kv.2 ≠ "")
  ∧ build_mapping ⟨[]⟩
        [⟨"", "", [], [], [["run", "run"]], [["running", "runs"]]⟩]
      = ⟨[("run", "running")]⟩ := by
  refine ⟨?_, ?_, by decide⟩
  · intro h
    exact buildFold_lookup_some sentences m.mapping h
  · intro h
    rcases mem_buildFold sentences h with h' | h'
    · simp at h'
    · exact h'

theorem build_mapping_first_write_wins_witness :
    (build_mapping ⟨[("run", "running")]⟩
        [⟨"", "", [], [], [["run"]], [["runs"]]⟩]).mapping.lookup "run"
      = some "running"
  ∧ ("run", "running")
      ∈ (build_mapping ⟨[]⟩
          [⟨"", "", [], [], [["run", "run"]], [["running", "runs"]]⟩]).mapping
  ∧ ("run" : String) ≠ "" ∧ ("running" : String) ≠ "" := by
  refine ⟨?_, by decide, ?_⟩
  · exact (build_mapping_first_write_wins ⟨[("run", "running")]⟩
      [⟨"", "", [], [], [["run"]], [["runs"]]⟩] "run" "running" ("x", "y")).1
      (by decide)
  · exact (build_mapping_first_write_wins ⟨[]⟩
      [⟨"", "", [], [], [["run", "run"]], [["running", "runs"]]⟩] "x" "y"
      ("run", "running")).2.1 (by decide)

theorem pairLt_asymm {a b : Nat × String} (h : pairLt a b) : ¬pairLt b a := by
  rcases h with h | ⟨he, h⟩
  · rintro (h' | ⟨he', h'⟩)
    · exact lt_asymm h h'
    · rw [he'] at h
      exact lt_irrefl _ h
  · rintro (h' | ⟨he', h'⟩)
    · rw [he] at h'
      exact lt_irrefl _ h'
    · exact lt_asymm h h'

theorem pairLt_trans {a b c : Nat × String} (h1 : pairLt a b)
    (h2 : pairLt b c) : pairLt a c := by
  rcases h1 with h1 | ⟨he1, h1⟩
  · rcases h2 with h2 | ⟨he2, h2⟩
    · exact Or.inl (lt_trans h1 h2)
    · exact Or.inl (he2 ▸ h1)
  · rcases h2 with h2 | ⟨he2, h2⟩
    · exact Or.inl (he1 ▸ h2)
    · exact Or.inr ⟨he1.trans he2, lt_trans h1 h2⟩

theorem pairLt_trichotomy (a b : Nat × String) :
    pairLt a b ∨ a = b ∨ pairLt b a := by
  rcases lt_trichotomy a.1 b.1 with h | h | h
  · exact Or.inl (Or.inl h)
  · rcases lt_trichotomy a.2.data b.2.data with h2 | h2 | h2
    · exact Or.inl (Or.inr ⟨h, h2⟩)
    · refine Or.inr (Or.inl ?_)
      obtain ⟨a1, a2⟩ := a
      obtain ⟨b1, b2⟩ := b
      simp only at h h2
      rw [h, String.ext h2]
    · exact Or.inr (Or.inr (Or.inr ⟨h.symm, h2⟩))
  · exact Or.inr (Or.inr (Or.inl h))

instance : IsTotal (Nat × String) pairGe :=
  ⟨fun a b => by
    by_cases h : pairLt a b
    · exact Or.inr (pairLt_asymm h)
    · exact Or.inl h⟩

instance : IsTrans (Nat × String) pairGe :=
  ⟨fun a b c hab hbc hac => by
    rcases pairLt_trichotomy a b with h | h | h
    · exact hab h
    · exact hbc (h ▸ hac)
    · exact hbc (pairLt_trans h hac)⟩

theorem pairGT_of_pairGe_ne {a b : Nat × String} (hge : pairGe a b)
    (hne : a ≠ b) : pairGT a b := by
  rcases pairLt_trichotomy a b with h | h | h
  · exact absurd h hge
  · exact absurd h hne
  · exact h

theorem bump_lookup (m : List (String × Nat)) (t s : String) :
    (bump m t).lookup s
      = if s = t then some ((m.lookup s).getD 0 + 1) else m.lookup s := by
  induction m with
  | nil =>
    by_cases h : s = t
    · subst h
      simp [bump, List.lookup]
    · have hb : (s == t) = false := beq_eq_false_iff_ne.mpr h
      simp [bump, List.lookup, hb, h]
  | cons a rest ih =>
    obtain ⟨k, v⟩ := a
    by_cases hk : k = t
    · subst hk
      by_cases hs : s = k
      · subst hs
        simp [bump, List.lookup]
      · have hb : (s == k) = false := beq_eq_false_iff_ne.mpr hs
        simp [bump, List.lookup, hb, hs]
    · by_cases hs : s = k
      · subst hs
        simp [bump, List.lookup, hk]
      · have hb : (s == k) = false := beq_eq_false_iff_ne.mpr hs
        simp [bump, List.lookup, hk, hb, ih]

theorem count_foldl_lookup (ts : List String) (m : List (String × Nat))
    (t : String) (ht : t ≠ "") :
    (ts.foldl (fun m token => if token.length = 0 then m else bump m token)
        m).lookup t
      = if t ∈ ts ∨ (m.lookup t).isSome
        then some ((m.lookup t).getD 0 + ts.count t) else none := by
  induction ts generalizing m with
  | nil =>
    cases hm : m.lookup t <;> simp [hm]
  | cons tok ts ih =>
    rw [List.foldl_cons]
    by_cases h0 : tok.length = 0
    · rw [if_pos h0]
      have htok : tok = "" := by
        obtain ⟨data⟩ := tok
        simp only [String.length] at h0
        rw [List.length_eq_zero] at h0
        rw [h0]
      have hne : t ≠ tok := htok ▸ ht
      have hcnt : (tok == t) = false := beq_eq_false_iff_ne.mpr (Ne.symm hne)
      rw [ih]
      simp only [List.mem_cons, eq_false hne, false_or, List.count_cons,
        hcnt, Bool.false_eq_true, if_false, Nat.add_zero]
    · rw [if_neg h0, ih, bump_lookup]
      by_cases he : t = tok
      · subst he
        simp only [if_pos rfl, Option.isSome_some, Option.getD_some,
          or_true, if_true, List.mem_cons, true_or, List.count_cons,
          beq_self_eq_true, if_true, Option.some.injEq]
        omega
      · have hcnt : (tok == t) = false :=
          beq_eq_false_iff_ne.mpr (Ne.symm he)
        simp only [if_neg he, List.mem_cons, eq_false he, false_or,
          List.count_cons, hcnt, Bool.false_eq_true, if_false, Nat.add_zero]

theorem count_foldl_lookup_empty (ts : List String)
    (m : List (String × Nat)) :
    (ts.foldl (fun m token => if token.length = 0 then m else bump m token)
        m).lookup ""
      = m.lookup "" := by
  induction ts generalizing m with
  | nil => rfl
  | cons tok ts ih =>
    rw [List.foldl_cons]
    by_cases h0 : tok.length = 0
    · rw [if_pos h0, ih]
    · have hne : ("" : String) ≠ tok := by
        intro h
        exact h0 (h ▸ rfl)
      rw [if_neg h0, ih, bump_lookup, if_neg hne]

theorem lookup_isSome_of_mem {m : List (String × Nat)}
    {e : String × Nat} (h : e ∈ m) : (m.lookup e.1).isSome := by
  induction m with
  | nil => simp at h
  | cons a rest ih =>
    obtain ⟨k, v⟩ := a
    rcases List.mem_cons.mp h with h | h
    · subst h
      simp [List.lookup]
    · by_cases hk : (e.1 == k) = true
      · simp [List.lookup, hk]
      · simp only [List.lookup, hk]
        exact ih h

theorem lookup_eq_of_mem_nodup {m : List (String × Nat)}
    {e : String × Nat} (hn : (m.map Prod.fst).Nodup) (h : e ∈ m) :
    m.lookup e.1 = some e.2 := by
  induction m with
  | nil => simp at h
  | cons a rest ih =>
    obtain ⟨k, v⟩ := a
    rw [List.map_cons, List.nodup_cons] at hn
    rcases List.mem_cons.mp h with h | h
    · subst h
      simp [List.lookup]
    · have hne : e.1 ≠ k := by
        intro hek
        have hm : e.1 ∈ rest.map Prod.fst := List.mem_map_of_mem Prod.fst h
        rw [hek] at hm
        exact hn.1 hm
      have hb : (e.1 == k) = false := beq_eq_false_iff_ne.mpr hne
      simp only [List.lookup, hb]
      exact ih hn.2 h

theorem mem_of_lookup_eq_some {m : List (String × Nat)} {k : String}
    {v : Nat} (h : m.lookup k = some v) : (k, v) ∈ m := by
  induction m with
  | nil => simp [List.lookup] at h
  | cons a rest ih =>
    obtain ⟨k1, v1⟩ := a
    by_cases hk : (k == k1) = true
    · simp only [List.lookup, hk] at h
      have hk1 : k = k1 := beq_iff_eq.mp hk
      obtain rfl := hk1
      obtain rfl : v1 = v := Option.some.inj h
      exact List.mem_cons_self _ _
    · simp only [List.lookup, hk] at h
      exact List.mem_cons_of_mem _ (ih h)

theorem bump_keys (m : List (String × Nat)) (t : String) :
    (bump m t).map Prod.fst
      = if t ∈ m.map Prod.fst then m.map Prod.fst
        else m.map Prod.fst ++ [t] := by
  induction m with
  | nil => simp [bump]
  | cons a rest ih =>
    obtain ⟨k, v⟩ := a
    by_cases hk : k = t
    · subst hk
      simp [bump]
    · simp only [bump, if_neg hk, List.map_cons]
      rw [ih]
      by_cases hm : t ∈ rest.map Prod.fst
      · rw [if_pos hm, if_pos (List.mem_cons_of_mem _ hm)]
      · rw [if_neg hm, if_neg ?hnc]
        case hnc =>
          intro hc
          rcases List.mem_cons.mp hc with hc | hc
          · exact hk hc.symm
          · exact hm hc
        rfl

theorem keys_nodup_bump {m : List (String × Nat)} {t : String}
    (h : (m.map Prod.fst).Nodup) : ((bump m t).map Prod.fst).Nodup := by
  rw [bump_keys]
  split
  · exact h
  · rename_i hm
    refine List.Nodup.append h (List.nodup_singleton _) ?_
    intro x hx ht
    rw [List.mem_singleton] at ht
    subst ht
    exact hm hx

theorem keys_nodup_count_foldl (ts : List String)
    (m : List (String × Nat)) (h : (m.map Prod.fst).Nodup) :
    (((ts.foldl
        (fun m token => if token.length = 0 then m else bump m token)
        m)).map Prod.fst).Nodup := by
  induction ts generalizing m with
  | nil => exact h
  | cons tok ts ih =>
    rw [List.foldl_cons]
    by_cases h0 : tok.length = 0
    · rw [if_pos h0]
      exact ih _ h
    · rw [if_neg h0]
      exact ih _ (keys_nodup_bump h)

theorem countStemTokens_keys_nodup (comments : List FilterSentences) :
    ((countStemTokens comments).map Prod.fst).Nodup :=
  keys_nodup_count_foldl _ [] (by simp)

theorem stemTokenPairs_nodup (comments : List FilterSentences) :
    (stemTokenPairs comments).Nodup := by
  have h2 : (countStemTokens comments).Nodup :=
    (countStemTokens_keys_nodup comments).of_map
  refine h2.map ?_
  intro x y hxy
  obtain ⟨x1, x2⟩ := x
  obtain ⟨y1, y2⟩ := y
  simp only [Prod.mk.injEq] at hxy ⊢
  exact ⟨hxy.2, hxy.1⟩

theorem lookup_isSome_iff_mem_keys {m : List (String × Nat)} {t : String} :
    (m.lookup t).isSome ↔ t ∈ m.map Prod.fst := by
  induction m with
  | nil => simp [List.lookup]
  | cons a rest ih =>
    obtain ⟨k, v⟩ := a
    by_cases hk : (t == k) = true
    · have := beq_iff_eq.mp hk
      subst this
      simp [List.lookup]
    · have hne : t ≠ k := fun h => hk (beq_iff_eq.mpr h)
      simp only [List.lookup, hk, List.map_cons, List.mem_cons,
        eq_false hne, false_or]
      exact ih

theorem countStemTokens_mem (comments : List FilterSentences)
    {kv : String × Nat} (hkv : kv ∈ countStemTokens comments) :
    kv.1 ≠ ""
  ∧ kv.2 = ((comments.map FilterSentences.stem_tokens).flatten.flatten).count
      kv.1 := by
  have h1 : kv.1 ≠ "" := by
    intro h
    have hs := lookup_isSome_of_mem hkv
    rw [h] at hs
    unfold countStemTokens at hs
    rw [count_foldl_lookup_empty] at hs
    simp [List.lookup] at hs
  have h2 := lookup_eq_of_mem_nodup (countStemTokens_keys_nodup comments) hkv
  unfold countStemTokens at h2
  rw [count_foldl_lookup _ _ _ h1] at h2
  refine ⟨h1, ?_⟩
  split at h2
  · have h3 := Option.some.inj h2
    simp only [List.lookup, Option.getD_none, Nat.zero_add] at h3
    exact h3.symm
  · cases h2

theorem countStemTokens_keys_iff (comments : List FilterSentences)
    {t : String} (ht : t ≠ "") :
    t ∈ (countStemTokens comments).map Prod.fst
      ↔ t ∈ (comments.map FilterSentences.stem_tokens).flatten.flatten := by
  rw [← lookup_isSome_iff_mem_keys]
  unfold countStemTokens
  rw [count_foldl_lookup _ _ _ ht]
  constructor
  · intro h
    by_cases hc : t ∈ (comments.map FilterSentences.stem_tokens).flatten.flatten
        ∨ ((([] : List (String × Nat))).lookup t).isSome = true
    · rcases hc with hc | hc
      · exact hc
      · simp [List.lookup] at hc
    · rw [if_neg hc] at h
      simp at h
  · intro h
    rw [if_pos (Or.inl h)]
    rfl

/-- C5: the top-token selection returns exactly the first floor of
(distinct-token-count times percent) entries of the distinct nonempty
stem tokens of the corpus, arranged in the strictly descending order of
their (count, token-text) pairs, so that among equal counts the token
with the lexicographically larger text comes first; the count entries
are the occurrence counts of the distinct nonempty stem tokens; ten
distinct tokens at twenty percent yield exactly two entries. -/
theorem get_top_stem_tokens_selection (comments : List FilterSentences)
    (percent : ℚ) (h0 : 0 < percent) (h1 : percent ≤ 1) :
    (∃ l : List (Nat × String),
      l.Perm (stemTokenPairs comments)
      ∧ l.Pairwise pairGT
      ∧ get_top_stem_tokens comments percent
          = (l.take (Int.toNat ⌊(l.length : ℚ) * percent⌋)).map
              (fun i => (⟨i.2, i.1, 0⟩ : TokenWithScore)))
  ∧ (∀ kv ∈ countStemTokens comments,
        kv.1 ≠ ""
      ∧ kv.2 = ((comments.map FilterSentences.stem_tokens).flatten.flatten).count
          kv.1)
  ∧ (∀ t : String, t ≠ "" →
      (t ∈ (countStemTokens comments).map Prod.fst
        ↔ t ∈ (comments.map FilterSentences.stem_tokens).flatten.flatten))
  ∧ (get_top_stem_tokens
      [⟨"", "", [], [],
        [["a", "b", "c", "d", "e", "f", "g", "h", "i", "j"]], []⟩]
      (1/5)).length = 2 := by
  refine ⟨?_, fun kv hkv => countStemTokens_mem comments hkv,
    fun t ht => countStemTokens_keys_iff comments ht, ?_⟩
  · refine ⟨(stemTokenPairs comments).insertionSort pairGe, ?_, ?_, ?_⟩
    · exact List.perm_insertionSort pairGe _
    · have hs : List.Sorted pairGe
          ((stemTokenPairs comments).insertionSort pairGe) :=
        List.sorted_insertionSort pairGe _
      have hnd : ((stemTokenPairs comments).insertionSort pairGe).Pairwise
          (fun a b => a ≠ b) :=
        ((List.perm_insertionSort pairGe _).nodup_iff).mpr
          (stemTokenPairs_nodup comments)
      exact (List.Pairwise.and hs hnd).imp
        (fun hab => pairGT_of_pairGe_ne hab.1 hab.2)
    · unfold get_top_stem_tokens
      rw [← (List.perm_insertionSort pairGe (stemTokenPairs comments)).length_eq]
  · unfold get_top_stem_tokens
    have hlen : (stemTokenPairs
        [⟨"", "", [], [],
          [["a", "b", "c", "d", "e", "f", "g", "h", "i", "j"]], []⟩]).length
        = 10 := by decide
    rw [hlen]
    norm_num
    decide

theorem get_top_stem_tokens_selection_witness :
    (∃ l : List (Nat × String),
      l.Perm (stemTokenPairs
        [⟨"", "", [], [], [["good", "bad", "good"]], []⟩])
      ∧ l.Pairwise pairGT
      ∧ get_top_stem_tokens
            [⟨"", "", [], [], [["good", "bad", "good"]], []⟩] 1
          = (l.take (Int.toNat ⌊(l.length : ℚ) * 1⌋)).map
              (fun i => (⟨i.2, i.1, 0⟩ : TokenWithScore))) := by
  exact (get_top_stem_tokens_selection
    [⟨"", "", [], [], [["good", "bad", "good"]], []⟩] 1
    (by norm_num) (by norm_num)).1
